import Mathlib

/-
Verification of the blueprint snapshot/diff core (src/blueprint/__init__.py).

The development shallowly embeds the `Blueprint` class: its `packages`
data model (manager name -> package name -> list of version strings),
the recursive `walk` traversal (lines 522-564), the three-pass
subtraction `__sub__` (lines 85-155), the lazily built `managers` index
(lines 169-184), and the serialization `dumps` (lines 238-248).

Python dictionaries are embedded as association lists.  The `packages`
attribute of a fresh blueprint is a `defaultdict(lambda: defaultdict(list))`
(line 189): indexing a missing manager name inserts an empty entry.  A
blueprint decoded from storage (line 79, `json.loads`) instead holds a
plain dict, where indexing a missing key raises `KeyError`.  The
`plainPkgs` flag on the embedded document records which of the two
behaviours the stored `packages` mapping has; `==` on Python dicts
ignores that distinction, and so do the equality statements below.

Python's recursion is embedded with explicit fuel: `walkTrace pkgs fuel m`
returns `none` when the recursion of `Blueprint.walk` nests deeper than
`fuel` frames.  Fallible operations return `Except PyErr`.
-/

abbrev VerList := List String

abbrev MgrMap := List (String × VerList)

abbrev PkgMap := List (String × MgrMap)

/-- Association-list lookup: the embedded meaning of `d[k]` / `d.get(k)`. -/
def lookupA {α : Type} : List (String × α) → String → Option α
  | [], _ => none
  | (k, v) :: rest, key => if k = key then some v else lookupA rest key

/-- Membership test `k in d` on an embedded dict. -/
def hasKey {α : Type} (l : List (String × α)) (k : String) : Bool :=
  (lookupA l k).isSome

/-- `del d[k]` on an embedded dict (keys are unique in Python dicts). -/
def eraseA {α : Type} : List (String × α) → String → List (String × α)
  | [], _ => []
  | (k, v) :: rest, key => if k = key then rest else (k, v) :: eraseA rest key

/-- `d[k] = a` on an embedded dict: overwrite in place, or append a new key. -/
def upsertA {α : Type} : List (String × α) → String → α → List (String × α)
  | [], key, a => [(key, a)]
  | (k, v) :: rest, key, a =>
    if k = key then (k, a) :: rest else (k, v) :: upsertA rest key a

/-- `del b_versions[b_versions.index(version)]` guarded by `except ValueError`
(lines 110-113): remove the first occurrence of `v`, or leave the list
unchanged when `v` is absent. -/
def removeFirst : List String → String → List String
  | [], _ => []
  | x :: rest, v => if x = v then rest else x :: removeFirst rest v

/-- Boolean lexicographic comparison of character lists, mirroring the
inductive `List.lt`; used to give string comparisons that the kernel can
evaluate. -/
def listLtB : List Char → List Char → Bool
  | [], [] => false
  | [], _ :: _ => true
  | _ :: _, [] => false
  | a :: as, b :: bs =>
    if a < b then true else if b < a then false else listLtB as bs

theorem listLtB_iff : ∀ as bs : List Char, listLtB as bs = true ↔ as < bs := by
  intro as
  induction as with
  | nil =>
    intro bs
    cases bs with
    | nil =>
      constructor
      · intro h; exact absurd h (by simp [listLtB])
      · intro h; cases h
    | cons b bs =>
      constructor
      · intro _; exact List.Lex.nil
      · intro _; rfl
  | cons a as ih =>
    intro bs
    cases bs with
    | nil =>
      constructor
      · intro h; exact absurd h (by simp [listLtB])
      · intro h; cases h
    | cons b bs =>
      by_cases hab : a < b
      · constructor
        · intro _; exact List.Lex.rel hab
        · intro _; simp [listLtB, hab]
      · by_cases hba : b < a
        · constructor
          · intro h
            rw [listLtB, if_neg hab, if_pos hba] at h
            exact absurd h (by simp)
          · intro h
            cases h with
            | cons h1 => exact absurd hba (lt_irrefl a)
            | rel h1 => exact absurd h1 hab
        · have heq : a = b := le_antisymm (not_lt.mp hba) (not_lt.mp hab)
          subst heq
          rw [listLtB, if_neg hab, if_neg hba, ih bs]
          constructor
          · intro h; exact List.Lex.cons h
          · intro h
            cases h with
            | cons h1 => exact h1
            | rel h1 => exact absurd h1 (lt_irrefl a)

theorem strLtB_iff (s t : String) : listLtB s.toList t.toList = true ↔ s < t := by
  rw [String.lt_iff_toList_lt]
  exact listLtB_iff s.toList t.toList

/-- A kernel-computable decision procedure for `<` on strings. -/
instance (priority := 10000) decLtStrB : DecidableRel (fun a b : String => a < b) :=
  fun s t => decidable_of_iff (listLtB s.toList t.toList = true) (strLtB_iff s t)

/-- A kernel-computable decision procedure for `≤` on strings. -/
instance (priority := 10000) decLeStrB : DecidableRel (fun a b : String => a ≤ b) :=
  fun s t =>
    decidable_of_iff (listLtB s.toList t.toList = true ∨ s = t)
      (by rw [strLtB_iff]; exact (le_iff_lt_or_eq).symm)

/-- Boolean prefix test on character lists (the anchored `^...` part of
the third pass's regular expressions). -/
def isPrefixB : List Char → List Char → Bool
  | [], _ => true
  | _ :: _, [] => false
  | a :: as, b :: bs => a = b && isPrefixB as bs

/-- Ordering of dict items by key, as used by `sorted(manager.iteritems())`
(line 547): Python compares the `(package, versions)` tuples, which for
unique keys is ordering by package name. -/
def keyLe {α : Type} (a b : String × α) : Prop := a.1 ≤ b.1

instance {α : Type} : DecidableRel (keyLe (α := α)) :=
  fun a b => inferInstanceAs (Decidable (a.1 ≤ b.1))

instance {α : Type} : IsTotal (String × α) keyLe :=
  ⟨fun a b => le_total a.1 b.1⟩

instance {α : Type} : IsTrans (String × α) keyLe :=
  ⟨fun _ _ _ h1 h2 => le_trans h1 h2⟩

/-- `sorted(d.iteritems())`: stable sort of the items by key. -/
def sortByKey {α : Type} (l : List (String × α)) : List (String × α) :=
  List.insertionSort keyLe l

/-- One callback invocation of `Blueprint.walk`: `before(manager)`,
`package(manager, package, version)` or `after(manager)` (lines 529-534). -/
inductive Event where
  | before (m : String)
  | pkg (m p v : String)
  | after (m : String)
deriving DecidableEq, BEq, Repr

/-- The `package` callback invocations of one manager node: packages in
ascending name order, and for each package one event per version in
recorded order (lines 547-550). -/
def nodePkgEvents (pkgs : PkgMap) (m : String) : List Event :=
  ((sortByKey ((lookupA pkgs m).getD [])).map
    (fun e => e.2.map (fun v => Event.pkg m e.1 v))).flatten

/-- The child managers recorded while iterating a node (lines 551-552):
package names distinct from the node's own name that are themselves keys
of `self.packages`, in the same ascending order. -/
def childrenOf (pkgs : PkgMap) (m : String) : List String :=
  (sortByKey ((lookupA pkgs m).getD [])).filterMap
    (fun e => if e.1 != m && hasKey pkgs e.1 then some e.1 else none)

/-- All callback invocations of a single node, in source order:
`before`, the package events, then `after` (lines 538-557). -/
def nodeEvents (pkgs : PkgMap) (m : String) : List Event :=
  Event.before m :: nodePkgEvents pkgs m ++ [Event.after m]

/-- Sequence a list of optional values; `none` if any element is `none`. -/
def seqOpt {α : Type} : List (Option α) → Option (List α)
  | [] => some []
  | none :: _ => none
  | some a :: rest => (seqOpt rest).map (fun l => a :: l)

/-- `Blueprint.walk(managername)` (lines 522-564) as the sequence of
callback invocations it performs, with explicit recursion fuel: the
node's own events followed by the recursive walks of its children
(line 563-564).  `none` means the recursion nested deeper than `fuel`. -/
def walkTrace (pkgs : PkgMap) : Nat → String → Option (List Event)
  | 0, _ => none
  | fuel + 1, m =>
    match seqOpt ((childrenOf pkgs m).map (fun c => walkTrace pkgs fuel c)) with
    | none => none
    | some ts => some (nodeEvents pkgs m ++ ts.flatten)

inductive PyErr where
  | keyError
  | attrError
  | fuel
deriving DecidableEq, Repr

instance {α : Type} [DecidableEq α] : DecidableEq (Except PyErr α) := fun a b =>
  match a, b with
  | .ok x, .ok y =>
    if h : x = y then isTrue (by rw [h]) else isFalse (by intro hc; cases hc; exact h rfl)
  | .error x, .error y =>
    if h : x = y then isTrue (by rw [h]) else isFalse (by intro hc; cases hc; exact h rfl)
  | .ok _, .error _ => isFalse (by intro hc; cases hc)
  | .error _, .ok _ => isFalse (by intro hc; cases hc)

/-- A `files` entry (spec section 3); its internals are irrelevant to the
walk and diff algorithms and appear only in serialization. -/
structure FileEntry where
  owner : String
  group : String
  mode : String
  content : String
  encoding : String
deriving DecidableEq, Repr

/-- The dict contents of a `Blueprint` object.  Each top-level key can be
absent (`none`) or present; `arch` can be present with value `None`
(`some none`).  `plainPkgs` records whether the stored `packages`
mapping is a plain dict (decoded via `json.loads`, line 79) rather than
the auto-vivifying `defaultdict` installed by the `packages` property
(line 189). -/
structure Blueprint where
  arch : Option (Option String) := none
  files : Option (List (String × FileEntry)) := none
  packages : Option PkgMap := none
  plainPkgs : Bool := false
  sources : Option (List (String × String)) := none
deriving DecidableEq, Repr

/-- The `packages` property (lines 186-190): reading it installs an empty
`defaultdict` under the `'packages'` key when the key is absent. -/
def ensurePkgsKey (d : Blueprint) : Blueprint :=
  match d.packages with
  | none => { d with packages := some [], plainPkgs := false }
  | some _ => d

/-- `self.packages[k]`: the property access followed by indexing.  On a
`defaultdict` a missing key is inserted with an empty dict; on a plain
(decoded) dict it raises `KeyError`. -/
def pkgsIndex (d : Blueprint) (k : String) : Except PyErr (Blueprint × MgrMap) :=
  let d1 := ensurePkgsKey d
  let pm := d1.packages.getD []
  match lookupA pm k with
  | some m => .ok (d1, m)
  | none =>
    if d1.plainPkgs then .error .keyError
    else .ok ({ d1 with packages := some (pm ++ [(k, [])]) }, [])

/-- Store an updated manager dict back under `k` (the in-place mutation of
the aliased inner dict in Python). -/
def setMgr (d : Blueprint) (k : String) (m : MgrMap) : Blueprint :=
  { d with packages := some (upsertA (d.packages.getD []) k m) }

def ofOption {α : Type} : Option α → Except PyErr α
  | none => .error .fuel
  | some a => .ok a

/-- A full `d.walk(mgr, ...)` call: the root `Manager(managername,
self.packages[managername])` construction (line 536, which can mutate the
document or raise), then the traversal.  Returns the post-state of the
walked document and the callback trace. -/
def walkOp (d : Blueprint) (mgr : String) (fuel : Nat) :
    Except PyErr (Blueprint × List Event) := do
  let r ← pkgsIndex d mgr
  let t ← ofOption (walkTrace (r.1.packages.getD []) fuel mgr)
  .ok (r.1, t)

/-- The first-pass `package` callback of `__sub__` (lines 101-117),
acting on the private copy `b`. -/
def hook1 (b : Blueprint) (mname p v : String) : Except PyErr Blueprint :=
  let b1 := ensurePkgsKey b
  let pm := b1.packages.getD []
  if hasKey pm p then .ok b1
  else if hasKey ((lookupA pm mname).getD []) mname then .ok b1
  else do
    let r ← pkgsIndex b1 mname
    match lookupA r.2 p with
    | none => .ok r.1
    | some vs =>
      let vs2 := removeFirst vs v
      let inner2 := if vs2 = [] then eraseA r.2 p else upsertA r.2 p vs2
      .ok (setMgr r.1 mname inner2)

/-- Apply the first pass: fold `hook1` over the package events of the
walk of `other` (line 118, `other.walk(package=package)`). -/
def applyPass1 : List Event → Blueprint → Except PyErr Blueprint
  | [], b => .ok b
  | Event.pkg m p v :: rest, b => do applyPass1 rest (← hook1 b m p v)
  | _ :: rest, b => applyPass1 rest b

/-- Modelled from the spec: the `Manager` class (module `manager`) is not
under src/.  Per spec sections 3 and 4.5 a manager view is its name plus
the wrapped mapping, and the self-entry exclusion works by name, so the
comparison `manager != package` (line 180) is embedded as inequality of
the manager's name and the package name. -/
def managerNeqPkg (mname p : String) : Bool := mname != p

/-- The `managers` property (lines 169-184): walk `self` from `'apt'` and
record, for every package that is itself a top-level key of
`self.packages`, the manager that installed it.  `'apt'` maps to `None`
(line 177).  (Python caches the result in `self._managers`; the cache is
an object attribute, invisible to dict equality, and `self` does not
change between the calls made by one subtraction, so recomputing is
behaviourally identical.) -/
def managersOf (fuel : Nat) (selfD : Blueprint) :
    Except PyErr (Blueprint × List (String × Option String)) := do
  let r ← pkgsIndex selfD "apt"
  let spkgs := r.1.packages.getD []
  let t ← ofOption (walkTrace spkgs fuel "apt")
  let mgrs := t.foldl
    (fun acc ev =>
      match ev with
      | Event.pkg m p _ =>
        if hasKey spkgs p && managerNeqPkg m p then upsertA acc p (some m) else acc
      | _ => acc)
    [("apt", none)]
  .ok (r.1, mgrs)

/-- The second-pass `package` callback of `__sub__` (lines 122-127): if a
package that is itself a manager now manages zero packages, delete its
table and its entry under the manager that installed it.  Looking up
`self.managers[package]` raises `KeyError` for an unindexed package, and
`.name` on the `None` stored for `'apt'` raises `AttributeError`. -/
def hook2 (fuel : Nat) (st : Blueprint × Blueprint) (p : String) :
    Except PyErr (Blueprint × Blueprint) :=
  let b1 := ensurePkgsKey st.1
  let pm := b1.packages.getD []
  match lookupA pm p with
  | none => .ok (b1, st.2)
  | some inner =>
    if inner.length = 0 then do
      let b2 := { b1 with packages := some (eraseA pm p) }
      let r ← managersOf fuel st.2
      match lookupA r.2 p with
      | none => .error .keyError
      | some none => .error .attrError
      | some (some parent) => do
        let q ← pkgsIndex b2 parent
        match lookupA q.2 p with
        | none => .error .keyError
        | some _ => .ok (setMgr q.1 parent (eraseA q.2 p), r.1)
    else .ok (b1, st.2)

/-- Apply the second pass over the package events of the second walk of
`other` (line 128); the state is the pair (copy `b`, original `self`). -/
def applyPass2 (fuel : Nat) : List Event → Blueprint × Blueprint →
    Except PyErr (Blueprint × Blueprint)
  | [], st => .ok st
  | Event.pkg _ p _ :: rest, st => do applyPass2 fuel rest (← hook2 fuel st p)
  | _ :: rest, st => applyPass2 fuel rest st

/-- Drop a leading run of decimal digits. -/
def chompDigits : List Char → List Char
  | [] => []
  | c :: rest => if c.isDigit then chompDigits rest else c :: rest

/-- Consume one-or-more decimal digits (`\d+`); `none` if there is no
leading digit, otherwise the remaining characters. -/
def digits1 : List Char → Option (List Char)
  | [] => none
  | c :: rest => if c.isDigit then some (chompDigits rest) else none

/-- Full match of a version tail against `\d+(?:\.\d+)?$`. -/
def verTailNN (cs : List Char) : Bool :=
  match digits1 cs with
  | none => false
  | some [] => true
  | some ('.' :: rest2) =>
    match digits1 rest2 with
    | some [] => true
    | _ => false
  | some _ => false

/-- Full match of a version tail against `\d+\.\d+(?:\.\d+)?$`. -/
def verTailDD (cs : List Char) : Bool :=
  match digits1 cs with
  | some ('.' :: rest2) =>
    match digits1 rest2 with
    | some [] => true
    | some ('.' :: rest3) =>
      match digits1 rest3 with
      | some [] => true
      | _ => false
    | _ => false
  | _ => false

/-- `re.search(r'^python(\d+(?:\.\d+)?)$', name)` (line 139): the captured
version group on success. -/
def pythonPat (s : String) : Option String :=
  if isPrefixB "python".toList s.toList && verTailNN (s.toList.drop 6) then
    some (s.toList.drop 6).asString
  else none

/-- `re.search(r'^ruby(\d+\.\d+(?:\.\d+)?)$', name)` (line 141). -/
def rubyPat (s : String) : Option String :=
  if isPrefixB "ruby".toList s.toList && verTailDD (s.toList.drop 4) then
    some (s.toList.drop 4).asString
  else none

/-- `re.search(r'^rubygems(\d+\.\d+(?:\.\d+)?)$', name)` (line 142). -/
def rubygemsPat (s : String) : Option String :=
  if isPrefixB "rubygems".toList s.toList && verTailDD (s.toList.drop 8) then
    some (s.toList.drop 8).asString
  else none

/-- The bootstrap templates of the `deps` table (lines 139-143), already
instantiated at a captured version string, e.g. `'python{0}-dev'.format(v)`. -/
def pyTmpls (v : String) : List String :=
  ["python" ++ v, "python" ++ v ++ "-dev"]

def rbTmpls (v : String) : List String :=
  ["ruby" ++ v ++ "-dev"]

def gemTmpls (v : String) : List String :=
  ["ruby" ++ v, "ruby" ++ v ++ "-dev"]

/-- Handling of one instantiated bootstrap package name in the third pass
(lines 148-152): look it up in `self.packages['apt']` (a defaultdict
access on `self`!) and, when found, copy name and version list into
`b.packages['apt']`.  The state is the pair (copy `b`, original `self`). -/
def hook3Tmpl (st : Blueprint × Blueprint) (pkgname : String) :
    Except PyErr (Blueprint × Blueprint) := do
  let r ← pkgsIndex st.2 "apt"
  match lookupA r.2 pkgname with
  | none => .ok (st.1, r.1)
  | some vs => do
    let q ← pkgsIndex st.1 "apt"
    .ok (setMgr q.1 "apt" (upsertA q.2 pkgname vs), r.1)

def applyTmpls : List String → Blueprint × Blueprint →
    Except PyErr (Blueprint × Blueprint)
  | [], st => .ok st
  | n :: ns, st => do applyTmpls ns (← hook3Tmpl st n)

/-- One `deps` table entry of the third pass: skip when the pattern does
not match the manager name, otherwise process every template (lines
144-152).  The three patterns are mutually exclusive, so the arbitrary
dict iteration order of `deps.iteritems()` does not matter; they are
processed in the source's literal order. -/
def tryPat (pat : String → Option String) (tmpls : String → List String)
    (mname : String) (st : Blueprint × Blueprint) :
    Except PyErr (Blueprint × Blueprint) :=
  match pat mname with
  | none => .ok st
  | some v => applyTmpls (tmpls v) st

/-- The third-pass `after` callback of `__sub__` (lines 136-152). -/
def hook3 (st : Blueprint × Blueprint) (mname : String) :
    Except PyErr (Blueprint × Blueprint) :=
  let b1 := ensurePkgsKey st.1
  if hasKey (b1.packages.getD []) mname then do
    let st1 ← tryPat pythonPat pyTmpls mname (b1, st.2)
    let st2 ← tryPat rubyPat rbTmpls mname st1
    tryPat rubygemsPat gemTmpls mname st2
  else .ok (b1, st.2)

/-- Apply the third pass over the `after` events of the third walk of
`other` (line 153, `other.walk(after=after)`). -/
def applyPass3 : List Event → Blueprint × Blueprint →
    Except PyErr (Blueprint × Blueprint)
  | [], st => .ok st
  | Event.after m :: rest, st => do applyPass3 rest (← hook3 st m)
  | _ :: rest, st => applyPass3 rest st

/-- `Blueprint.__sub__` (lines 85-155): three passes over walks of
`other`, mutating a deep copy `b` of `self`.  Returns the result together
with the post-states of `self` and `other`, both of which the Python code
can mutate through attribute accesses.  The walk of `other` computes its
callback sequence from `other.packages` alone, which no `__sub__`
callback mutates, so each pass is embedded as the trace of that walk
folded through the pass's callback. -/
def subtract (fuel : Nat) (selfD other : Blueprint) :
    Except PyErr (Blueprint × Blueprint × Blueprint) := do
  let o1 ← pkgsIndex other "apt"
  let t1 ← ofOption (walkTrace (o1.1.packages.getD []) fuel "apt")
  let b1 ← applyPass1 t1 selfD
  let o2 ← pkgsIndex o1.1 "apt"
  let t2 ← ofOption (walkTrace (o2.1.packages.getD []) fuel "apt")
  let st2 ← applyPass2 fuel t2 (b1, selfD)
  let o3 ← pkgsIndex o2.1 "apt"
  let t3 ← ofOption (walkTrace (o3.1.packages.getD []) fuel "apt")
  let st3 ← applyPass3 t3 st2
  .ok (st3.1, st3.2, o3.1)

/-- The destructive normalization inside `dumps` (lines 243-247): delete
`'arch'` when its value is `None`, and each of `'files'`, `'packages'`,
`'sources'` when its collection is empty. -/
def normalizeDoc (d : Blueprint) : Blueprint :=
  let d1 := if d.arch = some none then { d with arch := none } else d
  let d2 := if d1.files = some [] then { d1 with files := none } else d1
  let d3 := if d2.packages = some [] then { d2 with packages := none } else d2
  if d3.sources = some [] then { d3 with sources := none } else d3

def escChar (c : Char) : String :=
  if c = '"' then "\\\""
  else if c = '\\' then "\\\\"
  else if c = '\n' then "\\n"
  else if c = '\t' then "\\t"
  else if c = '\r' then "\\r"
  else Char.toString c

/-- A JSON string literal. -/
def jstr (s : String) : String :=
  "\"" ++ String.join (s.toList.map escChar) ++ "\""

/-- Layout of a JSON object or array at `indent=2`, as produced by
`json.dumps(self, indent=2, sort_keys=True)` (line 248). -/
def renderBlock (ind opener closer : String) (items : List String) : String :=
  if items = [] then opener ++ closer
  else
    opener ++ "\n" ++ ind ++ "  " ++
      String.intercalate (",\n" ++ ind ++ "  ") items ++ "\n" ++ ind ++ closer

def renderVerList (ind : String) (vs : VerList) : String :=
  renderBlock ind "[" "]" (vs.map jstr)

def renderMgrMap (ind : String) (m : MgrMap) : String :=
  renderBlock ind "\x7b" "\x7d"
    ((sortByKey m).map (fun e => jstr e.1 ++ ": " ++ renderVerList (ind ++ "  ") e.2))

def renderPkgMap (ind : String) (pm : PkgMap) : String :=
  renderBlock ind "\x7b" "\x7d"
    ((sortByKey pm).map (fun e => jstr e.1 ++ ": " ++ renderMgrMap (ind ++ "  ") e.2))

def renderFileEntry (ind : String) (f : FileEntry) : String :=
  renderBlock ind "\x7b" "\x7d"
    [jstr "content" ++ ": " ++ jstr f.content,
     jstr "encoding" ++ ": " ++ jstr f.encoding,
     jstr "group" ++ ": " ++ jstr f.group,
     jstr "mode" ++ ": " ++ jstr f.mode,
     jstr "owner" ++ ": " ++ jstr f.owner]

def renderFiles (ind : String) (fs : List (String × FileEntry)) : String :=
  renderBlock ind "\x7b" "\x7d"
    ((sortByKey fs).map (fun e => jstr e.1 ++ ": " ++ renderFileEntry (ind ++ "  ") e.2))

def renderSources (ind : String) (ss : List (String × String)) : String :=
  renderBlock ind "\x7b" "\x7d"
    ((sortByKey ss).map (fun e => jstr e.1 ++ ": " ++ jstr e.2))

/-- `json.dumps(self, indent=2, sort_keys=True)` on the (already
normalized) document: keys sorted at every level, two-space indent.
The four top-level keys happen to be alphabetically ordered. -/
def renderParts (arch : Option (Option String))
    (files : Option (List (String × FileEntry)))
    (packages : Option PkgMap)
    (sources : Option (List (String × String))) : String :=
  let items :=
    (match arch with
     | none => []
     | some a =>
       [jstr "arch" ++ ": " ++ (match a with | none => "null" | some s => jstr s)]) ++
    (match files with
     | none => []
     | some fs => [jstr "files" ++ ": " ++ renderFiles "  " fs]) ++
    (match packages with
     | none => []
     | some pm => [jstr "packages" ++ ": " ++ renderPkgMap "  " pm]) ++
    (match sources with
     | none => []
     | some ss => [jstr "sources" ++ ": " ++ renderSources "  " ss])
  renderBlock "" "\x7b" "\x7d" items

/-- `Blueprint.dumps` (lines 238-248): normalize the document in place,
then serialize it.  Returns the mutated document and the output text. -/
def dumpsState (d : Blueprint) : Blueprint × String :=
  let nd := normalizeDoc d
  (nd, renderParts nd.arch nd.files nd.packages nd.sources)

/-- A freshly constructed empty blueprint (`Blueprint()`, line 83). -/
def emptyBp : Blueprint := {}

/-- The empty document after one walk touched it: the `packages` property
installed the defaultdict and the root access inserted `'apt'`. -/
def aptScaffold : Blueprint := { packages := some [("apt", [])] }

/-- The `self` document of the spec's subtraction scenario (claim C1). -/
def selfC1 : Blueprint :=
  { packages := some
      [("apt", [("curl", ["7.1"]), ("pip", ["1.0"])]),
       ("pip", [("flask", ["1.0"])])] }

/-- The `other` document of the spec's subtraction scenario (claim C1). -/
def otherC1 : Blueprint :=
  { packages := some [("apt", [("curl", ["7.1"])])] }

/-- The expected subtraction result of the scenario. -/
def resC1 : Blueprint :=
  { packages := some
      [("apt", [("pip", ["1.0"])]),
       ("pip", [("flask", ["1.0"])])] }

/-- A document whose managers `aa` and `bb` each record the other as a
package (both are keys of `packages`), reachable from `apt`. -/
def cycDoc : PkgMap :=
  [("apt", [("aa", ["1"])]),
   ("aa", [("bb", ["1"])]),
   ("bb", [("aa", ["1"])])]

/-- A diamond: `pip` is recorded as a package under both `gx` and `gy`,
which are both children of `apt`. -/
def diamondDoc : PkgMap :=
  [("apt", [("gx", ["1"]), ("gy", ["1"])]),
   ("gx", [("pip", ["1"])]),
   ("gy", [("pip", ["1"])]),
   ("pip", [("pz", ["1"])])]

/-- The `self` document of claim C4's bootstrap-restoration scenario:
`apt` holds `python3` and `python3-dev`, and a `python3` manager holds
one package, all of which `other` shares. -/
def selfC4 : Blueprint :=
  { packages := some
      [("apt", [("python3", ["3.0"]), ("python3-dev", ["3.0"])]),
       ("python3", [("foo", ["1"])])] }

/-- The `other` document of claim C4's scenario: it shares the whole
`python3` manager table with `self`, so passes 1 and 2 remove that
manager from the result. -/
def otherC4 : Blueprint :=
  { packages := some
      [("apt", [("python3", ["3.0"])]),
       ("python3", [("foo", ["1"])])] }

/-- What the subtraction actually produces for claim C4's scenario. -/
def resC4 : Blueprint :=
  { packages := some [("apt", [("python3-dev", ["3.0"])])] }

/-- A variant of the scenario in which `other` shares only part of the
`python3` manager's table, so the manager survives passes 1 and 2. -/
def selfC4b : Blueprint :=
  { packages := some
      [("apt", [("python3", ["3.0"]), ("python3-dev", ["3.0"])]),
       ("python3", [("foo", ["1"]), ("bar", ["2"])])] }

def otherC4b : Blueprint :=
  { packages := some
      [("apt", [("python3", ["3.0"]), ("python3-dev", ["3.0"])]),
       ("python3", [("foo", ["1"])])] }

/-- The result for the variant: pass 1 strips `apt`->`python3-dev` and
`python3`->`foo`, and pass 3 restores `python3` and `python3-dev` under
`apt` because the `python3` manager is still present. -/
def resC4b : Blueprint :=
  { packages := some
      [("apt", [("python3", ["3.0"]), ("python3-dev", ["3.0"])]),
       ("python3", [("bar", ["2"])])] }

/-- A document decoded from storage (`json.loads`, line 79) whose plain
`packages` dict has no `'apt'` key. -/
def decodedDoc : Blueprint :=
  { packages := some [("pip", [("flask", ["1.0"])])], plainPkgs := true }

/-- Projection used to state package-hook ordering: the package name of a
`package` callback event. -/
def evPkgName : Event → Option String
  | Event.pkg _ p _ => some p
  | _ => none

/-- Selector for the version argument of a `package` callback on the
package named `p`. -/
def verFilt (p : String) : Event → Option String
  | Event.pkg _ q v => if q = p then some v else none
  | _ => none

/-- The version arguments of the `package` callbacks received for a given
package name, in callback order. -/
def evVersionsFor (p : String) (evs : List Event) : List String :=
  evs.filterMap (verFilt p)

/-- A small document used to instantiate the universally quantified
ordering theorem: one manager with two packages, one of them with two
recorded versions. -/
def demoPkgs : PkgMap :=
  [("apt", [("bb", ["1", "2"]), ("aa", ["1"])])]

/-- The callback trace of walking `demoPkgs` from `apt`. -/
def demoTrace : List Event :=
  [Event.before "apt", Event.pkg "apt" "aa" "1",
   Event.pkg "apt" "bb" "1", Event.pkg "apt" "bb" "2", Event.after "apt"]

/-- A two-manager document with an acyclic hierarchy, used to instantiate
the ranked-termination theorem. -/
def pkgsRanked : PkgMap :=
  [("apt", [("aaa", ["1"])]), ("aaa", [])]

/-- A rank that decreases along the child relation of `pkgsRanked`. -/
def rankRanked (s : String) : Nat := if s = "aaa" then 0 else 1

/-- Unfolding equation for the successor-fuel case of the walk. -/
theorem walkTrace_succ (pkgs : PkgMap) (fuel : Nat) (m : String) :
    walkTrace pkgs (fuel + 1) m =
      match seqOpt ((childrenOf pkgs m).map (fun c => walkTrace pkgs fuel c)) with
      | none => none
      | some ts => some (nodeEvents pkgs m ++ ts.flatten) := rfl

/-- Claim C1: subtracting `other` (with `apt`->`curl` 7.1) from `self`
(with `apt`->`curl` 7.1, `apt`->`pip` 1.0 and a `pip` manager holding
`flask` 1.0) yields exactly `apt`->`pip` and `pip`->`flask`; `self` and
`other` are left as they were, and the result is built from a copy of
`self` by the three passes. -/
theorem subtract_scenario :
    subtract 5 selfC1 otherC1 = .ok (resC1, selfC1, otherC1) ∧
    resC1.packages = some
      [("apt", [("pip", ["1.0"])]), ("pip", [("flask", ["1.0"])])] := by
  exact ⟨by decide, rfl⟩

/-- Claim C4, counterexample: in the exact scenario of the claim (`other`
shares the whole `python3` manager table, so passes 1 and 2 delete the
`python3` manager), the result does NOT contain `apt`->`python3`: the
third pass returns early because `manager.name not in b.packages`
(line 137). -/
theorem subtract_no_restore_when_manager_removed :
    subtract 5 selfC4 otherC4 = .ok (resC4, selfC4, otherC4) ∧
    hasKey (resC4.packages.getD []) "python3" = false ∧
    lookupA ((lookupA (resC4.packages.getD []) "apt").getD []) "python3" = none := by
  exact ⟨by decide, by decide, by decide⟩

/-- Claim C4, amended: the third pass restores `apt`->`python3` and
`apt`->`python3-dev` (at `self`'s original version lists) only when the
`python3` manager is still a key of the result after passes 1 and 2 —
here because `other` shares the manager's table only partially. -/
theorem subtract_restores_when_manager_kept :
    subtract 5 selfC4b otherC4b = .ok (resC4b, selfC4b, otherC4b) ∧
    lookupA ((lookupA (resC4b.packages.getD []) "apt").getD []) "python3" =
      some ["3.0"] ∧
    lookupA ((lookupA (resC4b.packages.getD []) "apt").getD []) "python3-dev" =
      some ["3.0"] ∧
    hasKey (resC4b.packages.getD []) "python3" = true := by
  exact ⟨by decide, by decide, by decide, by decide⟩

/-- Claim C3, counterexample: in the diamond document, where `gx` and
`gy` both record `pip` as a package, a single walk from `apt` invokes
the hooks of the `pip` node twice, not exactly once (the walk keys its
recursion on each parent's package listing and keeps no visited set,
lines 545-564). -/
theorem walk_visits_shared_manager_twice :
    (walkTrace diamondDoc 10 "apt").isSome = true ∧
    ((walkTrace diamondDoc 10 "apt").getD []).count (Event.before "pip") = 2 := by
  exact ⟨by decide, by decide⟩

/-- Claim C3, amended: a manager's self-entry is never collected as a
child to recurse into, but a manager recorded under several walked
parents is visited once per such reference (twice for `pip` in the
diamond document), not exactly once. -/
theorem walk_self_entry_excluded :
    (∀ (pkgs : PkgMap) (m : String), m ∉ childrenOf pkgs m) ∧
    ((walkTrace diamondDoc 10 "apt").getD []).count (Event.before "pip") = 2 := by
  constructor
  · intro pkgs m hmem
    unfold childrenOf at hmem
    obtain ⟨e, _, hf⟩ := List.mem_filterMap.mp hmem
    by_cases hc : (e.1 != m && hasKey pkgs e.1) = true
    · rw [if_pos hc] at hf
      have he : e.1 = m := Option.some.inj hf
      have : e.1 ≠ m := by
        have := (Bool.and_eq_true _ _).mp hc
        exact bne_iff_ne.mp this.1
      exact this he
    · rw [if_neg hc] at hf
      exact Option.noConfusion hf
  · decide

/-- Claim C9, counterexample: a document decoded from storage holds a
plain dict under `packages` (line 79); walking a manager name absent
from it raises `KeyError` at `self.packages[managername]` (line 536)
instead of completing normally. -/
theorem walk_decoded_missing_manager_raises :
    walkOp decodedDoc "apt" 5 = .error .keyError ∧
    lookupA (decodedDoc.packages.getD []) "apt" = none := by
  exact ⟨by decide, by decide⟩

/-- At no fuel does the walk of the mutually referencing managers of
`cycDoc` finish: each visit of `aa` recurses into `bb` and conversely. -/
theorem cyc_walk_aa_bb : ∀ n : Nat,
    walkTrace cycDoc n "aa" = none ∧ walkTrace cycDoc n "bb" = none := by
  intro n
  induction n with
  | zero => exact ⟨rfl, rfl⟩
  | succ k ih =>
    have ha : childrenOf cycDoc "aa" = ["bb"] := by decide
    have hb : childrenOf cycDoc "bb" = ["aa"] := by decide
    constructor
    · rw [walkTrace_succ, ha]
      simp [ih.2, seqOpt]
    · rw [walkTrace_succ, hb]
      simp [ih.1, seqOpt]

theorem cyc_walk_root_none : ∀ n : Nat, walkTrace cycDoc n "apt" = none := by
  intro n
  cases n with
  | zero => rfl
  | succ k =>
    have ha : childrenOf cycDoc "apt" = ["aa"] := by decide
    rw [walkTrace_succ, ha]
    simp [(cyc_walk_aa_bb k).1, seqOpt]

/-- Claim C2, counterexample: for the document `cycDoc`, in which the
managers `aa` and `bb` each record the other as a package, the walk from
`apt` does not terminate — in particular its recursion is not bounded by
the number of manager names (three), since even fuel 10 is exhausted,
and no fuel suffices. -/
theorem walk_cycle_nonterminating :
    walkTrace cycDoc 10 "apt" = none ∧
    ¬ ∃ fuel : Nat, (walkTrace cycDoc fuel "apt").isSome = true := by
  constructor
  · decide
  · intro hex
    obtain ⟨fuel, hf⟩ := hex
    rw [cyc_walk_root_none fuel] at hf
    exact Bool.noConfusion hf

theorem seqOpt_isSome {α : Type} :
    ∀ l : List (Option α), (∀ o ∈ l, o.isSome = true) → (seqOpt l).isSome = true := by
  intro l
  induction l with
  | nil => intro _; rfl
  | cons o rest ih =>
    intro h
    have ho := h o (List.mem_cons_self o rest)
    obtain ⟨a, ha⟩ := Option.isSome_iff_exists.mp ho
    subst ha
    have hr := ih (fun o hm => h o (List.mem_cons_of_mem _ hm))
    obtain ⟨ts, hts⟩ := Option.isSome_iff_exists.mp hr
    simp [seqOpt, hts]

/-- Claim C2, amended: the walk terminates whenever the child relation of
the document admits a strictly decreasing rank on manager names
(equivalently, whenever the recorded hierarchy is acyclic); a recursion
depth of `rank m + 1` frames then suffices, so when the rank is bounded
by the number of manager names, so is the depth.  On cyclic documents
(see the counterexample) the walk does not terminate. -/
theorem walk_terminates_ranked (pkgs : PkgMap) (rank : String → Nat)
    (m : String) (fuel : Nat)
    (hrank : ∀ a b, b ∈ childrenOf pkgs a → rank b < rank a)
    (hm : rank m < fuel) :
    (walkTrace pkgs fuel m).isSome = true := by
  induction fuel generalizing m with
  | zero => exact absurd hm (Nat.not_lt_zero _)
  | succ k ih =>
    rw [walkTrace_succ]
    have hseq : (seqOpt ((childrenOf pkgs m).map
        (fun c => walkTrace pkgs k c))).isSome = true := by
      apply seqOpt_isSome
      intro o ho
      obtain ⟨c, hc, rfl⟩ := List.mem_map.mp ho
      apply ih
      have h1 := hrank m c hc
      omega
    obtain ⟨ts, hts⟩ := Option.isSome_iff_exists.mp hseq
    rw [hts]
    rfl

/-- Witness for the ranked-termination theorem at a concrete acyclic
document: `apt` records `aaa`, which manages nothing. -/
theorem walk_terminates_ranked_witness :
    rankRanked "apt" < 2 ∧ (walkTrace pkgsRanked 2 "apt").isSome = true := by
  constructor
  · decide
  · apply walk_terminates_ranked pkgsRanked rankRanked "apt" 2
    · intro a b hb
      by_cases h1 : ("apt" : String) = a
      · subst h1
        have hc : childrenOf pkgsRanked "apt" = ["aaa"] := by decide
        rw [hc] at hb
        have : b = "aaa" := List.mem_singleton.mp hb
        subst this
        decide
      · by_cases h2 : ("aaa" : String) = a
        · subst h2
          have hc : childrenOf pkgsRanked "aaa" = [] := by decide
          rw [hc] at hb
          exact absurd hb (List.not_mem_nil b)
        · have hl : lookupA pkgsRanked a = none := by
            simp [pkgsRanked, lookupA, h1, h2]
          have hc : childrenOf pkgsRanked a = [] := by
            simp [childrenOf, hl, sortByKey, List.insertionSort]
          rw [hc] at hb
          exact absurd hb (List.not_mem_nil b)
    · decide

/-- The in-place normalization of `dumps` acts independently on the four
optional keys and touches nothing else. -/
theorem normalizeDoc_eq (a : Option (Option String))
    (f : Option (List (String × FileEntry))) (p : Option PkgMap)
    (pl : Bool) (s : Option (List (String × String))) :
    normalizeDoc ⟨a, f, p, pl, s⟩ =
      ⟨if a = some none then none else a,
       if f = some [] then none else f,
       if p = some [] then none else p,
       pl,
       if s = some [] then none else s⟩ := by
  unfold normalizeDoc
  split_ifs <;> simp_all

/-- Claim C10: `dumps` mutates the serialized document itself: after the
call, `arch` has been deleted when it was null, and each empty
collection among `files`, `packages`, `sources` has been deleted; all
other content (and the dict flavour of `packages`) is unchanged. -/
theorem dumps_mutates_document (d : Blueprint) :
    (dumpsState d).1.arch = (if d.arch = some none then none else d.arch) ∧
    (dumpsState d).1.files = (if d.files = some [] then none else d.files) ∧
    (dumpsState d).1.packages = (if d.packages = some [] then none else d.packages) ∧
    (dumpsState d).1.sources = (if d.sources = some [] then none else d.sources) ∧
    (dumpsState d).1.plainPkgs = d.plainPkgs := by
  obtain ⟨a, f, p, pl, s⟩ := d
  simp [dumpsState, normalizeDoc_eq]

theorem archNormEq {a b : Option (Option String)} (h : a.join = b.join) :
    (if a = some none then none else a) = (if b = some none then none else b) := by
  rcases a with _ | a1 <;> rcases b with _ | b1
  · rfl
  · rcases b1 with _ | bs
    · simp
    · simp [Option.join] at h
  · rcases a1 with _ | as
    · simp
    · simp [Option.join] at h
  · rcases a1 with _ | as <;> rcases b1 with _ | bs <;> simp [Option.join] at h ⊢
    exact h

theorem collNormEq {α : Type} [DecidableEq α] {a b : Option (List α)}
    (h : a.getD [] = b.getD []) :
    (if a = some [] then none else a) = (if b = some [] then none else b) := by
  rcases a with _ | a1 <;> rcases b with _ | b1
  · rfl
  · simp only [Option.getD] at h
    subst h
    simp
  · simp only [Option.getD] at h
    subst h
    simp
  · simp only [Option.getD] at h
    subst h
    rfl

/-- Claim C8: `dumps` omits a null `arch` and empty `files`, `packages`,
`sources` keys, so two documents with the same effective content — the
same `arch` value up to null-versus-absent and the same collections up
to empty-versus-absent — serialize to identical output text. -/
theorem dumps_canonical (d1 d2 : Blueprint)
    (ha : d1.arch.join = d2.arch.join)
    (hf : d1.files.getD [] = d2.files.getD [])
    (hp : d1.packages.getD [] = d2.packages.getD [])
    (hs : d1.sources.getD [] = d2.sources.getD []) :
    (dumpsState d1).2 = (dumpsState d2).2 := by
  obtain ⟨a1, f1, p1, pl1, s1⟩ := d1
  obtain ⟨a2, f2, p2, pl2, s2⟩ := d2
  dsimp only at ha hf hp hs
  simp only [dumpsState, normalizeDoc_eq]
  rw [archNormEq ha, collNormEq hf, collNormEq hp, collNormEq hs]

/-- Witness for the canonical-serialization theorem: a document with a
null `arch`, an empty `files` dict and an empty `sources` dict
serializes identically to one where those keys are absent and
`packages` is an empty dict instead. -/
theorem dumps_canonical_witness :
    (({ arch := some none, files := some [], sources := some [] } : Blueprint).arch.join
      = ({ packages := some [] } : Blueprint).arch.join) ∧
    (dumpsState { arch := some none, files := some [], sources := some [] }).2 =
      (dumpsState { packages := some [] }).2 := by
  exact ⟨rfl, dumps_canonical _ _ rfl rfl rfl rfl⟩
theorem pairwise_le_map_const {β : Type} (vs : List β) (k : String) :
    List.Pairwise (· ≤ ·) (vs.map (fun _ => k)) := by
  induction vs with
  | nil => exact List.Pairwise.nil
  | cons v vs ih =>
    refine List.Pairwise.cons ?_ ih
    intro y hy
    obtain ⟨_, _, rfl⟩ := List.mem_map.mp hy
    exact le_refl k

theorem mem_names_flatten {x : String} :
    ∀ l : List (String × VerList),
      x ∈ (l.map (fun e => e.2.map (fun _ => e.1))).flatten → ∃ b ∈ l, x = b.1 := by
  intro l
  induction l with
  | nil => intro h; exact absurd h (List.not_mem_nil x)
  | cons e l ih =>
    intro h
    rw [List.map_cons, List.flatten_cons, List.mem_append] at h
    cases h with
    | inl h1 =>
      obtain ⟨_, _, rfl⟩ := List.mem_map.mp h1
      exact ⟨e, List.mem_cons_self e l, rfl⟩
    | inr h2 =>
      obtain ⟨b, hb, rfl⟩ := ih h2
      exact ⟨b, List.mem_cons_of_mem e hb, rfl⟩

theorem sorted_flatten_names :
    ∀ l : List (String × VerList), List.Pairwise keyLe l →
      List.Sorted (· ≤ ·) ((l.map (fun e => e.2.map (fun _ => e.1))).flatten) := by
  intro l
  induction l with
  | nil => intro _; exact List.Pairwise.nil
  | cons e l ih =>
    intro hp
    rw [List.pairwise_cons] at hp
    rw [List.map_cons, List.flatten_cons]
    rw [List.Sorted, List.pairwise_append]
    refine ⟨pairwise_le_map_const e.2 e.1, ih hp.2, ?_⟩
    intro x hx y hy
    obtain ⟨_, _, rfl⟩ := List.mem_map.mp hx
    obtain ⟨b, hb, rfl⟩ := mem_names_flatten l hy
    exact hp.1 b hb

/-- The package-name sequence of a node's package events. -/
theorem names_of_nodePkgEvents (pkgs : PkgMap) (m : String) :
    (nodePkgEvents pkgs m).filterMap evPkgName =
      ((sortByKey ((lookupA pkgs m).getD [])).map
        (fun e => e.2.map (fun _ => e.1))).flatten := by
  unfold nodePkgEvents
  rw [List.filterMap_flatten, List.map_map]
  have hfun : (List.filterMap evPkgName ∘ fun e : String × VerList =>
      e.2.map (fun v => Event.pkg m e.1 v)) = fun e => e.2.map (fun _ => e.1) := by
    funext e
    show List.filterMap evPkgName (e.2.map (fun v => Event.pkg m e.1 v)) = _
    rw [List.filterMap_map]
    show List.filterMap (some ∘ (fun _ => e.1)) e.2 = _
    rw [List.filterMap_eq_map]
  rw [hfun]

theorem versions_group_none (m p : String) :
    ∀ l : List (String × VerList), (∀ b ∈ l, b.1 ≠ p) →
      List.filterMap (verFilt p)
        ((l.map (fun e => e.2.map (fun v => Event.pkg m e.1 v))).flatten) = [] := by
  intro l
  induction l with
  | nil => intro _; rfl
  | cons e l ih =>
    intro h
    rw [List.map_cons, List.flatten_cons, List.filterMap_append]
    have h1 : List.filterMap (verFilt p) (e.2.map (fun v => Event.pkg m e.1 v)) = [] := by
      rw [List.filterMap_map]
      apply List.filterMap_eq_nil_iff.mpr
      intro v _
      show (if e.1 = p then some v else none) = none
      rw [if_neg (h e (List.mem_cons_self e l))]
    rw [h1, ih (fun b hb => h b (List.mem_cons_of_mem e hb)), List.nil_append]

theorem versions_of_group (m : String) :
    ∀ l : List (String × VerList), (l.map Prod.fst).Nodup →
      ∀ p vs, (p, vs) ∈ l →
        List.filterMap (verFilt p)
          ((l.map (fun e => e.2.map (fun v => Event.pkg m e.1 v))).flatten) = vs := by
  intro l
  induction l with
  | nil => intro _ p vs h; exact absurd h (List.not_mem_nil _)
  | cons e l ih =>
    intro hnd p vs hmem
    rw [List.map_cons, List.nodup_cons] at hnd
    rw [List.map_cons, List.flatten_cons, List.filterMap_append]
    rcases List.mem_cons.mp hmem with heq | hmem2
    · subst heq
      have hgrp : List.filterMap (verFilt p) (vs.map (fun v => Event.pkg m p v)) = vs := by
        rw [List.filterMap_map]
        have hsome : (verFilt p ∘ fun v => Event.pkg m p v) = some ∘ id := by
          funext v
          show (if p = p then some v else none) = some v
          rw [if_pos rfl]
        rw [hsome, List.filterMap_eq_map, List.map_id]
      have hrest : List.filterMap (verFilt p)
          ((l.map (fun e => e.2.map (fun v => Event.pkg m e.1 v))).flatten) = [] := by
        apply versions_group_none
        intro b hb hbp
        exact hnd.1 (List.mem_map.mpr ⟨b, hb, hbp⟩)
      rw [hgrp, hrest, List.append_nil]
    · have hne : e.1 ≠ p := by
        intro hc
        apply hnd.1
        rw [hc]
        exact List.mem_map.mpr ⟨(p, vs), hmem2, rfl⟩
      have hgrp : List.filterMap (verFilt p) (e.2.map (fun v => Event.pkg m e.1 v)) = [] := by
        rw [List.filterMap_map]
        apply List.filterMap_eq_nil_iff.mpr
        intro v _
        show (if e.1 = p then some v else none) = none
        rw [if_neg hne]
      rw [hgrp, ih hnd.2 p vs hmem2, List.nil_append]

theorem children_sublist_names (pkgs : PkgMap) (m : String) :
    ∀ l : List (String × VerList),
      (l.filterMap (fun e => if e.1 != m && hasKey pkgs e.1 then some e.1 else none)).Sublist
        (l.map Prod.fst) := by
  intro l
  induction l with
  | nil => exact List.Sublist.slnil
  | cons e l ih =>
    rw [List.filterMap_cons, List.map_cons]
    by_cases hc : (e.1 != m && hasKey pkgs e.1) = true
    · rw [if_pos hc]
      exact List.Sublist.cons₂ e.1 ih
    · rw [if_neg hc]
      exact List.Sublist.cons e.1 ih

/-- Claim C7: within each manager node the `package` callbacks run in
ascending lexicographic package-name order, once per version in recorded
order; the children are collected in that same ascending order and their
recursive walks happen after the node's `after` callback; and the walk
is deterministic — equal inputs give the identical callback sequence. -/
theorem walk_order_deterministic (pkgs : PkgMap) (m : String) (fuel : Nat)
    (t : List Event)
    (ht : walkTrace pkgs (fuel + 1) m = some t)
    (hnd : (((lookupA pkgs m).getD []).map Prod.fst).Nodup) :
    List.Sorted (· ≤ ·) ((nodePkgEvents pkgs m).filterMap evPkgName) ∧
    (∀ p vs, (p, vs) ∈ (lookupA pkgs m).getD [] →
      evVersionsFor p (nodePkgEvents pkgs m) = vs) ∧
    List.Sorted (· ≤ ·) (childrenOf pkgs m) ∧
    (∃ ts, seqOpt ((childrenOf pkgs m).map (fun c => walkTrace pkgs fuel c)) = some ts ∧
      t = nodeEvents pkgs m ++ ts.flatten) ∧
    (∀ t2, walkTrace pkgs (fuel + 1) m = some t2 → t2 = t) := by
  have hsorted : List.Pairwise keyLe (sortByKey ((lookupA pkgs m).getD [])) :=
    List.sorted_insertionSort keyLe ((lookupA pkgs m).getD [])
  refine ⟨?_, ?_, ?_, ?_, ?_⟩
  · rw [names_of_nodePkgEvents]
    exact sorted_flatten_names _ hsorted
  · intro p vs hmem
    have hperm := List.perm_insertionSort (keyLe (α := VerList)) ((lookupA pkgs m).getD [])
    have hmem2 : (p, vs) ∈ sortByKey ((lookupA pkgs m).getD []) := by
      unfold sortByKey
      exact hperm.mem_iff.mpr hmem
    have hnd2 : ((sortByKey ((lookupA pkgs m).getD [])).map Prod.fst).Nodup := by
      unfold sortByKey
      exact (hperm.map Prod.fst).nodup_iff.mpr hnd
    exact versions_of_group m _ hnd2 p vs hmem2
  · unfold childrenOf
    have hsub := children_sublist_names pkgs m (sortByKey ((lookupA pkgs m).getD []))
    have hmap : List.Pairwise (· ≤ ·)
        ((sortByKey ((lookupA pkgs m).getD [])).map Prod.fst) := by
      rw [List.pairwise_map]
      exact hsorted
    exact List.Pairwise.sublist hsub hmap
  · rw [walkTrace_succ] at ht
    cases hs : seqOpt ((childrenOf pkgs m).map (fun c => walkTrace pkgs fuel c)) with
    | none => rw [hs] at ht; exact Option.noConfusion ht
    | some ts =>
      rw [hs] at ht
      exact ⟨ts, rfl, (Option.some.inj ht).symm⟩
  · intro t2 h2
    exact Option.some.inj (h2.symm.trans ht)

/-- Witness for the walk-ordering theorem: walking `demoPkgs` from `apt`
with fuel 1 produces `demoTrace`, whose package events are sorted. -/
theorem walk_order_deterministic_witness :
    walkTrace demoPkgs 1 "apt" = some demoTrace ∧
    List.Sorted (· ≤ ·) ((nodePkgEvents demoPkgs "apt").filterMap evPkgName) := by
  refine ⟨by decide, ?_⟩
  exact (walk_order_deterministic demoPkgs "apt" 0 demoTrace (by decide) (by decide)).1

theorem exbind_ok {α β : Type} (a : α) (f : α → Except PyErr β) :
    (Except.ok a >>= f) = f a := rfl

theorem exbind_err {α β : Type} (e : PyErr) (f : α → Except PyErr β) :
    ((Except.error e : Except PyErr α) >>= f) = Except.error e := rfl

theorem ensurePkgsKey_eq {d : Blueprint} {pm : PkgMap} (h : d.packages = some pm) :
    ensurePkgsKey d = d := by
  unfold ensurePkgsKey
  rw [h]

theorem pkgsIndex_present {d : Blueprint} {pm : PkgMap} {k : String} {mm : MgrMap}
    (h : d.packages = some pm) (hk : lookupA pm k = some mm) :
    pkgsIndex d k = .ok (d, mm) := by
  simp only [pkgsIndex, ensurePkgsKey_eq h, h, Option.getD_some, hk]

theorem managersOf_ok_self {fuel : Nat} {s : Blueprint} {pm : PkgMap} {am : MgrMap}
    (hp : s.packages = some pm) (ha : lookupA pm "apt" = some am) :
    ∀ {r : Blueprint × List (String × Option String)},
      managersOf fuel s = .ok r → r.1 = s := by
  intro r hr
  unfold managersOf at hr
  rw [pkgsIndex_present hp ha, exbind_ok] at hr
  dsimp only at hr
  cases hw : walkTrace (s.packages.getD []) fuel "apt" with
  | none =>
    rw [hw] at hr
    exact Except.noConfusion hr
  | some t =>
    rw [hw] at hr
    simp only [ofOption, exbind_ok] at hr
    have := Except.ok.inj hr
    rw [← this]

theorem hook2_ok_self {fuel : Nat} {s : Blueprint} {pm : PkgMap} {am : MgrMap}
    (hp : s.packages = some pm) (ha : lookupA pm "apt" = some am) :
    ∀ {b : Blueprint} {p : String} {st' : Blueprint × Blueprint},
      hook2 fuel (b, s) p = .ok st' → st'.2 = s := by
  intro b p st' h
  unfold hook2 at h
  dsimp only at h
  split at h
  · obtain rfl := Except.ok.inj h
    rfl
  · split at h
    · cases hm : managersOf fuel s with
      | error e =>
        rw [hm, exbind_err] at h
        exact Except.noConfusion h
      | ok r =>
        rw [hm, exbind_ok] at h
        split at h
        · exact Except.noConfusion h
        · exact Except.noConfusion h
        · cases hq : pkgsIndex { ensurePkgsKey b with
              packages := some (eraseA ((ensurePkgsKey b).packages.getD []) p) } _ with
          | error e =>
            rw [hq, exbind_err] at h
            exact Except.noConfusion h
          | ok q =>
            rw [hq, exbind_ok] at h
            split at h
            · exact Except.noConfusion h
            · obtain rfl := Except.ok.inj h
              exact managersOf_ok_self hp ha hm
    · obtain rfl := Except.ok.inj h
      rfl

theorem applyPass2_ok_self {fuel : Nat} {s : Blueprint} {pm : PkgMap} {am : MgrMap}
    (hp : s.packages = some pm) (ha : lookupA pm "apt" = some am) :
    ∀ (evs : List Event) (b : Blueprint) {st' : Blueprint × Blueprint},
      applyPass2 fuel evs (b, s) = .ok st' → st'.2 = s := by
  intro evs
  induction evs with
  | nil =>
    intro b st' h
    obtain rfl := Except.ok.inj h
    rfl
  | cons ev rest ih =>
    intro b st' h
    cases ev with
    | before m => exact ih b h
    | after m => exact ih b h
    | pkg m p v =>
      rw [applyPass2] at h
      cases hk : hook2 fuel (b, s) p with
      | error e =>
        rw [hk, exbind_err] at h
        exact Except.noConfusion h
      | ok mid =>
        have hmid : mid.2 = s := hook2_ok_self hp ha hk
        rw [hk, exbind_ok] at h
        obtain ⟨mb, ms⟩ := mid
        dsimp only at hmid
        subst hmid
        exact ih mb h

theorem hook3Tmpl_ok_self {s : Blueprint} {pm : PkgMap} {am : MgrMap}
    (hp : s.packages = some pm) (ha : lookupA pm "apt" = some am) :
    ∀ {b : Blueprint} {n : String} {st' : Blueprint × Blueprint},
      hook3Tmpl (b, s) n = .ok st' → st'.2 = s := by
  intro b n st' h
  unfold hook3Tmpl at h
  rw [pkgsIndex_present hp ha, exbind_ok] at h
  dsimp only at h
  split at h
  · obtain rfl := Except.ok.inj h
    rfl
  · cases hq : pkgsIndex b "apt" with
    | error e =>
      rw [hq, exbind_err] at h
      exact Except.noConfusion h
    | ok q =>
      rw [hq, exbind_ok] at h
      obtain rfl := Except.ok.inj h
      rfl

theorem applyTmpls_ok_self {s : Blueprint} {pm : PkgMap} {am : MgrMap}
    (hp : s.packages = some pm) (ha : lookupA pm "apt" = some am) :
    ∀ (ns : List String) (b : Blueprint) {st' : Blueprint × Blueprint},
      applyTmpls ns (b, s) = .ok st' → st'.2 = s := by
  intro ns
  induction ns with
  | nil =>
    intro b st' h
    obtain rfl := Except.ok.inj h
    rfl
  | cons n ns ih =>
    intro b st' h
    rw [applyTmpls] at h
    cases hk : hook3Tmpl (b, s) n with
    | error e =>
      rw [hk, exbind_err] at h
      exact Except.noConfusion h
    | ok mid =>
      have hmid : mid.2 = s := hook3Tmpl_ok_self hp ha hk
      rw [hk, exbind_ok] at h
      obtain ⟨mb, ms⟩ := mid
      dsimp only at hmid
      subst hmid
      exact ih mb h

theorem tryPat_ok_self {s : Blueprint} {pm : PkgMap} {am : MgrMap}
    (hp : s.packages = some pm) (ha : lookupA pm "apt" = some am) :
    ∀ {pat : String → Option String} {tmpls : String → List String}
      {mname : String} {b : Blueprint} {st' : Blueprint × Blueprint},
      tryPat pat tmpls mname (b, s) = .ok st' → st'.2 = s := by
  intro pat tmpls mname b st' h
  unfold tryPat at h
  split at h
  · obtain rfl := Except.ok.inj h
    rfl
  · exact applyTmpls_ok_self hp ha _ b h

theorem hook3_ok_self {s : Blueprint} {pm : PkgMap} {am : MgrMap}
    (hp : s.packages = some pm) (ha : lookupA pm "apt" = some am) :
    ∀ {b : Blueprint} {mname : String} {st' : Blueprint × Blueprint},
      hook3 (b, s) mname = .ok st' → st'.2 = s := by
  intro b mname st' h
  unfold hook3 at h
  dsimp only at h
  split at h
  · cases h1 : tryPat pythonPat pyTmpls mname (ensurePkgsKey b, s) with
    | error e =>
      rw [h1, exbind_err] at h
      exact Except.noConfusion h
    | ok st1 =>
      have hs1 : st1.2 = s := tryPat_ok_self hp ha h1
      rw [h1, exbind_ok] at h
      obtain ⟨b1, s1⟩ := st1
      dsimp only at hs1
      rw [hs1] at h
      cases h2 : tryPat rubyPat rbTmpls mname (b1, s) with
      | error e =>
        rw [h2, exbind_err] at h
        exact Except.noConfusion h
      | ok st2 =>
        have hs2 : st2.2 = s := tryPat_ok_self hp ha h2
        rw [h2, exbind_ok] at h
        obtain ⟨b2, s2⟩ := st2
        dsimp only at hs2
        rw [hs2] at h
        exact tryPat_ok_self hp ha h
  · obtain rfl := Except.ok.inj h
    rfl

theorem applyPass3_ok_self {s : Blueprint} {pm : PkgMap} {am : MgrMap}
    (hp : s.packages = some pm) (ha : lookupA pm "apt" = some am) :
    ∀ (evs : List Event) (b : Blueprint) {st' : Blueprint × Blueprint},
      applyPass3 evs (b, s) = .ok st' → st'.2 = s := by
  intro evs
  induction evs with
  | nil =>
    intro b st' h
    obtain rfl := Except.ok.inj h
    rfl
  | cons ev rest ih =>
    intro b st' h
    cases ev with
    | before m => exact ih b h
    | pkg m p v => exact ih b h
    | after m =>
      rw [applyPass3] at h
      cases hk : hook3 (b, s) m with
      | error e =>
        rw [hk, exbind_err] at h
        exact Except.noConfusion h
      | ok mid =>
        have hmid : mid.2 = s := hook3_ok_self hp ha hk
        rw [hk, exbind_ok] at h
        obtain ⟨mb, ms⟩ := mid
        dsimp only at hmid
        subst hmid
        exact ih mb h

/-- Claim C5, amended: `__sub__` never alters the recorded package data
of its inputs — when both `self` and `other` already carry a `packages`
mapping with an `'apt'` entry, a completed subtraction returns both
exactly unchanged.  (Without that proviso the claim fails: the walk's
attribute accesses insert the empty `packages`/`'apt'` scaffolding into
the inputs, see the counterexample.) -/
theorem subtract_preserves_inputs (selfD other : Blueprint)
    (pms pmo : PkgMap) (ams amo : MgrMap) (fuel : Nat)
    (res : Blueprint × Blueprint × Blueprint)
    (hps : selfD.packages = some pms) (has : lookupA pms "apt" = some ams)
    (hpo : other.packages = some pmo) (hao : lookupA pmo "apt" = some amo)
    (hok : subtract fuel selfD other = .ok res) :
    res.2.1 = selfD ∧ res.2.2 = other := by
  unfold subtract at hok
  rw [pkgsIndex_present hpo hao, exbind_ok] at hok
  dsimp only at hok
  cases ht1 : walkTrace (other.packages.getD []) fuel "apt" with
  | none =>
    rw [ht1] at hok
    exact Except.noConfusion hok
  | some t1 =>
    rw [ht1] at hok
    simp only [ofOption, exbind_ok] at hok
    cases hb1 : applyPass1 t1 selfD with
    | error e =>
      rw [hb1, exbind_err] at hok
      exact Except.noConfusion hok
    | ok b1 =>
      rw [hb1, exbind_ok] at hok
      rw [pkgsIndex_present hpo hao, exbind_ok] at hok
      dsimp only at hok
      rw [ht1] at hok
      simp only [ofOption, exbind_ok] at hok
      cases hst2 : applyPass2 fuel t1 (b1, selfD) with
      | error e =>
        rw [hst2, exbind_err] at hok
        exact Except.noConfusion hok
      | ok st2 =>
        have hs2 : st2.2 = selfD := applyPass2_ok_self hps has t1 b1 hst2
        rw [hst2, exbind_ok] at hok
        rw [pkgsIndex_present hpo hao, exbind_ok] at hok
        dsimp only at hok
        rw [ht1] at hok
        simp only [ofOption, exbind_ok] at hok
        obtain ⟨b2, s2⟩ := st2
        dsimp only at hs2
        rw [hs2] at hok
        cases hst3 : applyPass3 t1 (b2, selfD) with
        | error e =>
          rw [hst3, exbind_err] at hok
          exact Except.noConfusion hok
        | ok st3 =>
          have hs3 : st3.2 = selfD := applyPass3_ok_self hps has t1 b2 hst3
          rw [hst3, exbind_ok] at hok
          obtain rfl := Except.ok.inj hok
          exact ⟨hs3, rfl⟩

/-- Witness for the input-preservation theorem: subtracting the
one-empty-manager document from itself completes and returns both inputs
unchanged. -/
theorem subtract_preserves_inputs_witness :
    subtract 1 aptScaffold aptScaffold =
      .ok (aptScaffold, aptScaffold, aptScaffold) ∧
    ((aptScaffold, aptScaffold, aptScaffold) :
      Blueprint × Blueprint × Blueprint).2.1 = aptScaffold ∧
    ((aptScaffold, aptScaffold, aptScaffold) :
      Blueprint × Blueprint × Blueprint).2.2 = aptScaffold := by
  refine ⟨by decide, ?_⟩
  exact subtract_preserves_inputs aptScaffold aptScaffold
    [("apt", [])] [("apt", [])] [] [] 1
    (aptScaffold, aptScaffold, aptScaffold) rfl (by decide) rfl (by decide)
    (by decide)

/-- Claim C5, counterexample: subtracting two freshly constructed empty
blueprints mutates `other`: the walk's `packages` property and root
defaultdict access (lines 186-190, 536) leave it with
`packages == {'apt': {}}`, which differs from its prior (empty) value in
the presence of the `packages` key. -/
theorem subtract_mutates_empty_other :
    subtract 1 emptyBp emptyBp =
      .ok ({ packages := some [] }, emptyBp, aptScaffold) ∧
    aptScaffold ≠ emptyBp := by
  exact ⟨by decide, by decide⟩

/-- Claim C6, counterexample: for the empty document `d`, the result of
`d - emptyDocument` is not `d`: evaluating `b.packages` in the third
pass (line 137) installs an (empty) `packages` key on the result, so the
result and `d` differ as dicts. -/
theorem subtract_empty_not_noop_on_empty :
    subtract 1 emptyBp emptyBp =
      .ok ({ packages := some [] }, emptyBp, aptScaffold) ∧
    ({ packages := some [] } : Blueprint) ≠ emptyBp := by
  exact ⟨by decide, by decide⟩

theorem walkTrace_scaffold (fuel : Nat) :
    walkTrace (aptScaffold.packages.getD []) (fuel + 1) "apt" =
      some [Event.before "apt", Event.after "apt"] := by
  rw [walkTrace_succ]
  have hc : childrenOf (aptScaffold.packages.getD []) "apt" = [] := by decide
  rw [hc]
  have hn : nodeEvents (aptScaffold.packages.getD []) "apt" =
      [Event.before "apt", Event.after "apt"] := by decide
  simp [seqOpt, hn]

theorem hook3_apt_noop {b : Blueprint} {pmb : PkgMap} (s : Blueprint)
    (hb : b.packages = some pmb) :
    hook3 (b, s) "apt" = .ok (b, s) := by
  unfold hook3
  dsimp only
  rw [ensurePkgsKey_eq hb]
  have hpy : pythonPat "apt" = none := by decide
  have hrb : rubyPat "apt" = none := by decide
  have hgm : rubygemsPat "apt" = none := by decide
  cases hk : hasKey (b.packages.getD []) "apt" with
  | false => simp [hk]
  | true => simp [hk, tryPat, hpy, hrb, hgm, exbind_ok]

/-- Claim C6, amended: `subtract(d, emptyDocument) == d` holds for every
`d` that carries a `packages` mapping (however populated); the result
(and `d` itself) come back exactly unchanged, while the walked empty
document acquires the `packages`/`'apt'` scaffolding.  For a `d` with no
`packages` key the claim fails (see the counterexample): the result
additionally carries an empty `packages` mapping. -/
theorem subtract_empty_noop (d : Blueprint) (pm : PkgMap) (fuel : Nat)
    (hp : d.packages = some pm) :
    subtract (fuel + 1) d emptyBp = .ok (d, d, aptScaffold) := by
  unfold subtract
  have h0 : pkgsIndex emptyBp "apt" = .ok (aptScaffold, []) := by decide
  have h3 : pkgsIndex aptScaffold "apt" = .ok (aptScaffold, []) := by decide
  rw [h0, exbind_ok]
  dsimp only
  rw [walkTrace_scaffold fuel]
  simp only [ofOption, exbind_ok]
  have h1 : applyPass1 [Event.before "apt", Event.after "apt"] d = .ok d := rfl
  rw [h1, exbind_ok, h3, exbind_ok]
  dsimp only
  rw [walkTrace_scaffold fuel]
  simp only [ofOption, exbind_ok]
  have h2 : applyPass2 (fuel + 1) [Event.before "apt", Event.after "apt"] (d, d) =
      .ok (d, d) := rfl
  rw [h2, exbind_ok, h3, exbind_ok]
  dsimp only
  rw [walkTrace_scaffold fuel]
  simp only [ofOption, exbind_ok]
  have h4 : applyPass3 [Event.before "apt", Event.after "apt"] (d, d) =
      applyPass3 [Event.after "apt"] (d, d) := rfl
  rw [h4, applyPass3, hook3_apt_noop d hp, exbind_ok]
  rfl

/-- Witness for the empty-subtraction theorem at the C1 document. -/
theorem subtract_empty_noop_witness :
    selfC1.packages = some
      [("apt", [("curl", ["7.1"]), ("pip", ["1.0"])]),
       ("pip", [("flask", ["1.0"])])] ∧
    subtract 1 selfC1 emptyBp = .ok (selfC1, selfC1, aptScaffold) := by
  exact ⟨rfl, subtract_empty_noop selfC1 _ 0 rfl⟩

theorem lookupA_append_self {α : Type} {l : List (String × α)} {k : String} {x : α}
    (h : lookupA l k = none) : lookupA (l ++ [(k, x)]) k = some x := by
  induction l with
  | nil =>
    show (if k = k then some x else none) = some x
    rw [if_pos rfl]
  | cons e l ih =>
    rw [List.cons_append]
    show (if e.1 = k then some e.2 else lookupA (l ++ [(k, x)]) k) = some x
    by_cases he : e.1 = k
    · exfalso
      obtain ⟨k1, v1⟩ := e
      simp only [lookupA] at h
      rw [if_pos he] at h
      exact Option.noConfusion h
    · rw [if_neg he]
      apply ih
      obtain ⟨k1, v1⟩ := e
      simp only [lookupA] at h
      rw [if_neg he] at h
      exact h

theorem walkTrace_empty_mgr {pm : PkgMap} {mgr : String} (fuel : Nat)
    (h : lookupA pm mgr = some []) :
    walkTrace pm (fuel + 1) mgr = some [Event.before mgr, Event.after mgr] := by
  rw [walkTrace_succ]
  have hc : childrenOf pm mgr = [] := by
    unfold childrenOf
    rw [h]
    rfl
  have hn : nodeEvents pm mgr = [Event.before mgr, Event.after mgr] := by
    unfold nodeEvents nodePkgEvents
    rw [h]
    rfl
  rw [hc]
  simp [seqOpt, hn]

/-- Claim C9, amended: walking a manager with no packages recorded under
it completes normally with zero `package` callbacks and zero child
recursions whenever the `packages` mapping is absent or auto-vivifying
(a fresh or property-installed defaultdict), or the manager name is
present with an empty table.  When the document was decoded from storage
and its plain `packages` dict lacks the name, the walk instead raises
`KeyError` (see the counterexample). -/
theorem walk_empty_manager (d : Blueprint) (mgr : String) (fuel : Nat)
    (hno : lookupA (d.packages.getD []) mgr = none ∨
      lookupA (d.packages.getD []) mgr = some [])
    (hsafe : d.plainPkgs = true → (lookupA (d.packages.getD []) mgr).isSome = true) :
    ∃ d2 : Blueprint,
      walkOp d mgr (fuel + 1) = .ok (d2, [Event.before mgr, Event.after mgr]) := by
  cases hp : d.packages with
  | none =>
    refine ⟨{ d with packages := some [(mgr, [])], plainPkgs := false }, ?_⟩
    have hidx : pkgsIndex d mgr =
        .ok ({ d with packages := some [(mgr, [])], plainPkgs := false }, []) := by
      simp [pkgsIndex, ensurePkgsKey, hp, lookupA]
    unfold walkOp
    rw [hidx, exbind_ok]
    dsimp only
    rw [walkTrace_empty_mgr fuel (by
      show lookupA [(mgr, [])] mgr = some []
      simp [lookupA])]
    rfl
  | some pm0 =>
    cases hl : lookupA pm0 mgr with
    | some mm =>
      have hmm : mm = [] := by
        rcases hno with hno | hno
        · rw [hp] at hno
          simp only [Option.getD_some] at hno
          rw [hl] at hno
          exact Option.noConfusion hno
        · rw [hp] at hno
          simp only [Option.getD_some] at hno
          rw [hl] at hno
          exact Option.some.inj hno
      subst hmm
      refine ⟨d, ?_⟩
      unfold walkOp
      rw [pkgsIndex_present hp hl, exbind_ok]
      dsimp only
      rw [hp]
      rw [walkTrace_empty_mgr fuel (by simp only [Option.getD_some]; exact hl)]
      rfl
    | none =>
      cases hpl : d.plainPkgs with
      | true =>
        exfalso
        have := hsafe hpl
        rw [hp] at this
        simp only [Option.getD_some] at this
        rw [hl] at this
        exact Bool.noConfusion this
      | false =>
        refine ⟨{ d with packages := some (pm0 ++ [(mgr, [])]) }, ?_⟩
        have hidx : pkgsIndex d mgr =
            .ok ({ d with packages := some (pm0 ++ [(mgr, [])]) }, []) := by
          simp [pkgsIndex, ensurePkgsKey_eq hp, hp, hl, hpl]
        unfold walkOp
        rw [hidx, exbind_ok]
        dsimp only
        rw [walkTrace_empty_mgr fuel (by
          show lookupA (pm0 ++ [(mgr, [])]) mgr = some []
          exact lookupA_append_self hl)]
        rfl

/-- Witness for the empty-manager walk theorem: walking an absent
manager name on a fresh empty blueprint. -/
theorem walk_empty_manager_witness :
    lookupA (emptyBp.packages.getD []) "zzz" = none ∧
    (∃ d2 : Blueprint,
      walkOp emptyBp "zzz" 1 = .ok (d2, [Event.before "zzz", Event.after "zzz"])) := by
  exact ⟨by decide, walk_empty_manager emptyBp "zzz" 0 (Or.inl (by decide)) (by decide)⟩
